import Mathlib

/-!
Verification of the rtest continuous test-driver against its specification.

The development shallowly embeds the relevant Rust sources:

* `cargo_test_parser` (src/cargo_test_parser/src/lib.rs and its submodules):
  the test-listing parser, modelled over `Str := List Char` so that every
  operation mirrors the corresponding `&str` primitive (`trim`,
  `starts_with`, `trim_start_matches`, `splitn`, `rfind`, ...).
  Rust code that can panic (`unwrap` on an `Err`) is modelled by a
  distinguished `panicked` outcome.
* `rtest_core/src/engine.rs`: the job engine's flag table and the
  post-completion step of the executor loop.
* `rtest_core/src/state.rs`: the shared test state update.
* `rtest_core/src/shadow_copy_destination.rs` and
  `rtest/src/jobs/file_sync.rs`: path mirroring and file-sync jobs, with
  the filesystem abstracted as an oracle.
* `rtest_core/src/source_directory_watcher.rs`: the file-event coalescer.
* `rtest/src/jobs/run_tests.rs`: the command line built for a test run.
-/

/-- Strings are modelled as their character lists, so that every Rust
`&str` operation used by the sources has a small executable counterpart. -/
abbrev Str := List Char

/-- Unicode white space, as recognised by Rust's `char::is_whitespace`. -/
def isRustWs (c : Char) : Bool :=
  let n := c.toNat
  decide ((9 ≤ n ∧ n ≤ 13) ∨ n = 32 ∨ n = 133 ∨ n = 160 ∨ n = 5760 ∨
    (8192 ≤ n ∧ n ≤ 8202) ∨ n = 8232 ∨ n = 8233 ∨ n = 8239 ∨ n = 8287 ∨ n = 12288)

/-- Rust `str::trim_start`. -/
def rustTrimStart (s : Str) : Str := s.dropWhile isRustWs

/-- Rust `str::trim_end`. -/
def rustTrimEnd (s : Str) : Str := (s.reverse.dropWhile isRustWs).reverse

/-- Rust `str::trim`. -/
def rustTrim (s : Str) : Str := rustTrimEnd (rustTrimStart s)

/-- Whether `pat` is a leading part of `s` (Rust `str::starts_with`). -/
def isPre : Str → Str → Bool
  | [], _ => true
  | _ :: _, [] => false
  | p :: ps, c :: cs => p == c && isPre ps cs

/-- Whether `pat` is a trailing part of `s` (Rust `str::ends_with`). -/
def endsW (pat s : Str) : Bool := isPre pat.reverse s.reverse

/-- Fuelled worker for `trimStartMatchesL`; the fuel is the length of the
string, which bounds the number of times a non-empty pattern can be
stripped. -/
def tsmGo (pat : Str) : Nat → Str → Str
  | 0, s => s
  | k + 1, s =>
    if !pat.isEmpty && isPre pat s then tsmGo pat k (s.drop pat.length) else s

/-- Rust `str::trim_start_matches`: repeatedly strips `pat` from the front. -/
def trimStartMatchesL (pat s : Str) : Str := tsmGo pat s.length s

/-- Rust `str::trim_end_matches`: repeatedly strips `pat` from the back. -/
def trimEndMatchesL (pat s : Str) : Str :=
  (trimStartMatchesL pat.reverse s.reverse).reverse

/-- Split at the first occurrence of `sep`: the part before it and, when the
separator occurs, the part after it.  This is the behaviour of Rust
`str::splitn(2, sep)` (first component; second component present only when
the separator occurs). -/
def splitOnce (sep : Str) : Str → Str × Option Str
  | [] => if isPre sep [] then ([], some []) else ([], none)
  | c :: cs =>
    if isPre sep (c :: cs) then ([], some ((c :: cs).drop sep.length))
    else
      let r := splitOnce sep cs
      (c :: r.1, r.2)

/-- Whether `sep` occurs inside `s`. -/
def containsSeq (sep s : Str) : Bool := (splitOnce sep s).2.isSome

/-- Split at the last occurrence of `sep` (Rust `str::rfind` followed by
slicing): `some (before, after)`, neither part containing the separator
occurrence itself. -/
def rsplitOnce (sep s : Str) : Option (Str × Str) :=
  match splitOnce sep.reverse s.reverse with
  | (_, none) => none
  | (p, some q) => some (q.reverse, p.reverse)

/-- Rust `char::is_ascii_digit`. -/
def isAsciiDigit (c : Char) : Bool := decide (48 ≤ c.toNat ∧ c.toNat ≤ 57)

/-- Rust `char::is_ascii_hexdigit`. -/
def isAsciiHex (c : Char) : Bool :=
  isAsciiDigit c || decide ((97 ≤ c.toNat ∧ c.toNat ≤ 102) ∨ (65 ≤ c.toNat ∧ c.toNat ≤ 70))

/-- Numeric value of a string of decimal digits. -/
def digitsToNat (s : Str) : Nat := s.foldl (fun a c => a * 10 + (c.toNat - 48)) 0

/-- Largest value of Rust's 64-bit `usize`. -/
def usizeMax : Nat := 18446744073709551615

/-- Embeds `parse_leading_usize` from src/cargo_test_parser/src/utils.rs:
take the leading run of ASCII digits and parse it as a `usize` (failing on
an empty run, and on overflow as Rust's `str::parse::<usize>` does). -/
def parse_leading_usize (s : Str) : Option Nat :=
  let pre := s.takeWhile isAsciiDigit
  if pre.isEmpty then none
  else
    let v := digitsToNat pre
    if v ≤ usizeMax then some v else none

/-- Embeds `is_valid_uuid` from src/cargo_test_parser/src/utils.rs as a
boolean: 16 characters, all ASCII hex digits.  (Rust checks the byte
length; for the accepted strings every character is ASCII, so byte length
and character count agree on exactly the accepted set.) -/
def isValidUuidB (s : Str) : Bool := s.length == 16 && s.all isAsciiHex

/-- Error kinds of src/cargo_test_parser/src/parse_error.rs. -/
inductive ParseErrorKind where
  | extraInput
  | unexpectedEoF
  | malformedCrateName
  | malformedUuid
  | unitTestMiscount
  | benchmarkMiscount
  | docTestMiscount
  | malformedDocTestLine
  | sectionOverrun
deriving DecidableEq, Repr

/-- Embeds `ParseError` of src/cargo_test_parser/src/parse_error.rs.  The line
number and raw line text are those of the line being processed when the
error is raised (the parser only raises errors while a line is current). -/
structure ParseError where
  line_number : Nat
  line : Str
  kind : ParseErrorKind
  message : Str
deriving DecidableEq, Repr

/-- Embeds `ParseError::with_kind`, specialised to a current line. -/
def ParseError.withKind (k : ParseErrorKind) (n : Nat) (l : Str) : ParseError :=
  ⟨n, l, k, []⟩

/-- Embeds `ParseError::unit_test_miscount`: carries the actual found count in the
message. -/
def ParseError.unitTestMiscountE (n : Nat) (l : Str) (actual : Nat) : ParseError :=
  ⟨n, l, .unitTestMiscount, ("Actual found test count: ".data ++ (Nat.repr actual).data)⟩

/-- Embeds `CrateName` of src/cargo_test_parser/src/crate_name.rs. -/
structure CrateName where
  full_name : Str
  uuid : Str
  name : Str
  basename : Str
deriving DecidableEq, Repr

/-- Embeds `CrateName::parse`.  `n` and `raw` are the current line number
and raw line text used for error construction (the `ParseContext` data). -/
def CrateName.parse (full : Str) (n : Nat) (raw : Str) : Except ParseError CrateName :=
  let fn := rustTrim full
  if fn.isEmpty then .error (ParseError.withKind .malformedCrateName n raw)
  else
    match rsplitOnce ['-'] fn with
    | some (nm, uuid) =>
      if isValidUuidB uuid then
        let basename :=
          match rsplitOnce ['/'] nm with
          | some (_, after) => after
          | none => nm
        .ok ⟨fn, uuid, nm, basename⟩
      else .error (ParseError.withKind .malformedUuid n raw)
    | none => .ok ⟨fn, [], fn, fn⟩

/-- Embeds `DocTest` of src/cargo_test_parser/src/doc_test.rs. -/
structure DocTest where
  name : Str
  line_number : Nat
  file_name : Str
deriving DecidableEq, Repr

/-- Embeds `DocTest::parse`. -/
def DocTest.parse (line : Str) (n : Nat) (raw : Str) : Except ParseError DocTest :=
  let l := rustTrim line
  if l.isEmpty then .error (ParseError.withKind .malformedDocTestLine n raw)
  else
    match splitOnce " - ".data l with
    | (_, none) => .error (ParseError.withKind .malformedDocTestLine n raw)
    | (file, some rem0) =>
      let rem := trimEndMatchesL ": test".data rem0
      match rsplitOnce " (line ".data rem with
      | none => .error (ParseError.withKind .malformedDocTestLine n raw)
      | some (nm, lineExpr) =>
        match parse_leading_usize lineExpr with
        | none => .error (ParseError.withKind .malformedDocTestLine n raw)
        | some k => .ok ⟨nm, k, file⟩

/-- One crate's listed tests (`Tests` of src/cargo_test_parser/src/lib.rs). -/
structure Tests where
  crate_name : CrateName
  tests : List Str
  doc_tests : List DocTest
deriving DecidableEq, Repr

/-- Embeds `parse_unit_test`: lines of the form `NAME: test`. -/
def parse_unit_test (line : Str) : Option Str :=
  let l := rustTrim line
  if endsW ": test".data l then some (trimEndMatchesL ": test".data l) else none

/-- Embeds `parse_test_summary_count`: summary lines such as
`4 tests, 2 benchmarks`.  Note the source accepts a first half ending in
" tests" or in the literal "1 test" (and similarly " benchmarks" /
"1 benchmark"). -/
def parse_test_summary_count (line : Str) : Option (Nat × Nat) :=
  match splitOnce ", ".data line with
  | (_, none) => none
  | (s1, some s2) =>
    if endsW " tests".data s1 || endsW "1 test".data s1 then
      match parse_leading_usize s1 with
      | none => none
      | some n =>
        if endsW " benchmarks".data s2 || endsW "1 benchmark".data s2 then
          match parse_leading_usize s2 with
          | none => none
          | some m => some (n, m)
        else none
    else none

/-- Result of a run of `parse_test_list`.  `panicked` models a Rust panic
(`unwrap` of an `Err` inside the parser). -/
inductive ParseOutcome where
  | ok (tests : List Tests)
  | err (e : ParseError)
  | panicked
deriving DecidableEq, Repr

/-- The internal state of the `parse_test_list` loop: at top level between
sections, inside a unit-test section, or inside a doc-tests section.  In
the doc case the crate being extended sits between the other already
collected crates, mirroring the `&mut` borrow into the `tests` vector. -/
inductive PState where
  | top (acc : List Tests)
  | unit (acc : List Tests) (ct : Tests)
  | doc (before : List Tests) (target : Tests) (after : List Tests)
deriving DecidableEq, Repr

/-- The crates collected once input ends in a given state.  Rust's loops
simply stop at end of input: an open unit section is pushed, an open doc
section has already been attached in place. -/
def finishP : PState → List Tests
  | .top acc => acc
  | .unit acc ct => acc ++ [ct]
  | .doc b t a => b ++ [t] ++ a

/-- The constant `RUNNING_PREFIX` of parse_test_list. -/
def runningPat : Str := "Running ".data

/-- The constant `DOC_TEST_PREFIX` of parse_test_list. -/
def docTestsPat : Str := "Doc-tests ".data

/-- Splits `acc` at the first crate whose basename equals `cname`
(the `iter_mut().find(...)` of the Doc-tests branch). -/
def splitFirstBasename (acc : List Tests) (cname : Str) :
    Option (List Tests × Tests × List Tests) :=
  match acc with
  | [] => none
  | t :: rest =>
    if t.crate_name.basename == cname then some ([], t, rest)
    else
      match splitFirstBasename rest cname with
      | none => none
      | some (b, x, a) => some (t :: b, x, a)

/-- Processing of a single line of input by `parse_test_list`, given the
line's raw text `l`, its 1-based number `n` and the current loop state.
An `Except.error` is a terminated parse (parse error or panic); `Except.ok`
is the state for the rest of the lines.  This mirrors one iteration of the
nested `while let Some(line) = ctx.next()` loops of
src/cargo_test_parser/src/lib.rs lines 30-129, including the `unwrap`
panics of the Doc-tests branch. -/
def lineStep (l : Str) (n : Nat) (st : PState) : Except ParseOutcome PState :=
  match st with
  | .top acc =>
    let t := rustTrim l
    if isPre runningPat t then
      let rest := trimStartMatchesL runningPat t
      match CrateName.parse rest n l with
      | .error e => .error (.err e)
      | .ok cn => .ok (.unit acc ⟨cn, [], []⟩)
    else if isPre docTestsPat t then
      let rest := trimStartMatchesL docTestsPat t
      let cname := rustTrim rest
      match splitFirstBasename acc cname with
      | some (b, tgt, a) => .ok (.doc b tgt a)
      | none =>
        match CrateName.parse rest n l with
        | .error _ => .error .panicked
        | .ok cn =>
          if cn.basename == cname then .ok (.doc acc ⟨cn, [], []⟩ [])
          else .error .panicked
    else .ok st
  | .unit acc ct =>
    let t := rustTrim l
    if t.isEmpty then .ok st
    else if isPre runningPat t || isPre docTestsPat t then
      .error (.err (ParseError.withKind .sectionOverrun n l))
    else
      match parse_test_summary_count t with
      | some nm =>
        if ct.tests.length ≠ nm.1 then
          .error (.err (ParseError.unitTestMiscountE n l ct.tests.length))
        else .ok (.top (acc ++ [ct]))
      | none =>
        match parse_unit_test t with
        | some nm => .ok (.unit acc { ct with tests := ct.tests ++ [nm] })
        | none => .ok st
  | .doc b tgt a =>
    let t := rustTrim l
    if t.isEmpty then .ok st
    else if isPre runningPat t || isPre docTestsPat t then
      .error (.err (ParseError.withKind .sectionOverrun n l))
    else
      match parse_test_summary_count t with
      | some nm =>
        if tgt.doc_tests.length ≠ nm.1 then
          .error (.err (ParseError.unitTestMiscountE n l tgt.doc_tests.length))
        else .ok (.top (b ++ [tgt] ++ a))
      | none =>
        match DocTest.parse t n l with
        | .error e => .error (.err e)
        | .ok dt => .ok (.doc b { tgt with doc_tests := tgt.doc_tests ++ [dt] } a)

/-- Runs the line loop over the remaining lines; `n` is the 1-based number
of the first remaining line. -/
def parseLoop : List Str → Nat → PState → ParseOutcome
  | [], _, st => .ok (finishP st)
  | l :: rest, n, st =>
    match lineStep l n st with
    | .error out => out
    | .ok st2 => parseLoop rest (n + 1) st2

/-- Splits on a character, keeping empty pieces (worker for `rustLines`). -/
def splitChar (c : Char) : Str → List Str
  | [] => [[]]
  | x :: xs =>
    match splitChar c xs with
    | [] => if x == c then [[], []] else [[x]]
    | h :: t => if x == c then [] :: h :: t else (x :: h) :: t

/-- Worker for `rustLines`: every piece except the last was terminated by a
line feed, so it loses one trailing carriage return; a final empty piece
(from a trailing line feed, or empty input) is not a line. -/
def rustLinesGo : List Str → List Str
  | [] => []
  | [last] => if last.isEmpty then [] else [last]
  | p :: rest =>
    (if p.getLast? = some '\r' then p.dropLast else p) :: rustLinesGo rest

/-- Rust `str::lines`, as used by `ParseContext::new`. -/
def rustLines (s : Str) : List Str := rustLinesGo (splitChar '\n' s)

/-- Embeds `parse_test_list` of src/cargo_test_parser/src/lib.rs.  The
outcome is the parsed crate list, the first parse error, or a panic (the
`unwrap` calls in the Doc-tests branch). -/
def parse_test_list (data : Str) : ParseOutcome :=
  parseLoop (rustLines data) 1 (.top [])

/-! ## Shared test state (src/rtest_core/src/state.rs) -/

/-- Embeds `TestState` of src/rtest_core/src/state.rs. -/
inductive TestState where
  | notRun
  | compilationFailing
  | running
  | passed
  | failed
  | ignored
deriving DecidableEq, Repr

/-- Embeds `UnitTest` of src/rtest_core/src/state.rs. -/
structure UnitTest where
  name : Str
  state : TestState
  num_times_executed : Nat
deriving DecidableEq, Repr

/-- Embeds `UnitTest::new`. -/
def UnitTest.new (nm : Str) : UnitTest := ⟨nm, .notRun, 0⟩

/-- The `HashMap<String, UnitTest>` of `CrateTests` is modelled as an
association list with at most one entry per key; all reasoning is through
`hmLookup`, so the model is used purely as a key-value mapping. -/
abbrev UtMap := List (Str × UnitTest)

/-- Lookup in the unit-test mapping (`HashMap::get`). -/
def hmLookup (k : Str) : UtMap → Option UnitTest
  | [] => none
  | (k2, v) :: rest => if k = k2 then some v else hmLookup k rest

/-- Embeds `HashMap::remove`: the removed value (if any) and the remaining map. -/
def hmRemove (k : Str) : UtMap → Option UnitTest × UtMap
  | [] => (none, [])
  | (k2, v) :: rest =>
    if k = k2 then (some v, rest)
    else
      let r := hmRemove k rest
      (r.1, (k2, v) :: r.2)

/-- Embeds `HashMap::insert`: replaces an existing entry or appends a new one. -/
def hmInsert (k : Str) (v : UnitTest) : UtMap → UtMap
  | [] => [(k, v)]
  | (k2, v2) :: rest =>
    if k = k2 then (k, v) :: rest else (k2, v2) :: hmInsert k v rest

/-- Embeds `CrateTests` of src/rtest_core/src/state.rs.  Note the struct holds a
unit-test mapping only; the source's doc-test handling is an unimplemented
`TODO`. -/
structure CrateTests where
  crate_name : CrateName
  unit_tests : UtMap
deriving DecidableEq, Repr

/-- Embeds `CrateTests::new`. -/
def CrateTests.new (cn : CrateName) : CrateTests := ⟨cn, []⟩

/-- The rebuild loop of `update_test_list_for_crate`: walk the new names in
order; an entry removed from the old mapping is carried over, otherwise a
fresh `NotRun` entry is inserted. -/
def rebuildGo (old upd : UtMap) : List Str → UtMap
  | [] => upd
  | nm :: rest =>
    let r := hmRemove nm old
    rebuildGo r.2 (hmInsert nm (r.1.getD (UnitTest.new nm)) upd) rest

/-- Rebuilt unit-test mapping for one crate (the body of the `for` loop in
`update_test_list_for_crate`). -/
def rebuildUnitTests (old : UtMap) (names : List Str) : UtMap :=
  rebuildGo old [] names

/-- Strict lexicographic order on strings by code point; this agrees with
Rust's `Ord` for `String` (byte order), since UTF-8 preserves code-point
order. -/
def strLtB : Str → Str → Bool
  | [], [] => false
  | [], _ :: _ => true
  | _ :: _, [] => false
  | a :: as2, b :: bs =>
    if a.toNat < b.toNat then true
    else if b.toNat < a.toNat then false
    else strLtB as2 bs

/-- The comparison used by `Vec::sort` on `CrateTests` (delegating to
`CrateName`'s `Ord`, which compares the `name` field): `x` may stay before
`y` when `y` is not strictly below `x`. -/
def crateLe (x y : CrateTests) : Prop :=
  strLtB y.crate_name.name x.crate_name.name = false

instance : DecidableRel crateLe := fun x y => by
  unfold crateLe; infer_instance

/-- Embeds `Vec::sort` (a stable ascending sort); any stable sort computes the
same list, so Mathlib's insertion sort is a faithful model. -/
def sortCrates (l : List CrateTests) : List CrateTests :=
  l.insertionSort crateLe

/-- Splits a crate list at the first entry with the given `full_name`
(the `iter().position(...)` of `update_test_list_for_crate`). -/
def splitFirstFullName (l : List CrateTests) (fn : Str) :
    Option (List CrateTests × CrateTests × List CrateTests) :=
  match l with
  | [] => none
  | c :: rest =>
    if c.crate_name.full_name == fn then some ([], c, rest)
    else
      match splitFirstFullName rest fn with
      | none => none
      | some (b, x, a) => some (c :: b, x, a)

/-- Conversion of a parsed crate name to the owned form stored in the
state (`CrateName::new` in src/rtest_core/src/state.rs); both sides carry
the same four fields, so this is the identity of the payload. -/
def ownedCrateName (cn : CrateName) : CrateName := cn

/-- Embeds `InnerState::update_test_list_for_crate`: locate (or append) the
crate by `full_name`, rebuild its unit-test mapping from the new listing,
and re-sort the crates.  The parsed `doc_tests` are not consulted anywhere
(the source's doc handling is a `TODO`). -/
def update_test_list_for_crate (tests : List CrateTests) (t : Tests) : List CrateTests :=
  match splitFirstFullName tests t.crate_name.full_name with
  | some (b, crt, a) =>
    sortCrates (b ++ [{ crt with unit_tests := rebuildUnitTests crt.unit_tests t.tests }] ++ a)
  | none =>
    let crt := CrateTests.new (ownedCrateName t.crate_name)
    sortCrates (tests ++ [{ crt with unit_tests := rebuildUnitTests crt.unit_tests t.tests }])

/-- Embeds `InnerState::update_test_list`: apply the per-crate update for
each parsed crate in order. -/
def update_test_list (st : List CrateTests) (ts : List Tests) : List CrateTests :=
  ts.foldl update_test_list_for_crate st

/-! ## Job engine (src/rtest_core/src/engine.rs) -/

/-- Embeds `CompletionStatus` of src/rtest_core/src/jobs/jobs.rs. -/
inductive CompletionStatus where
  | unknown
  | ok
  | error (msg : Str)
deriving DecidableEq, Repr

/-- Embeds `FileSyncEvent` of src/rtest_core/src/source_directory_watcher.rs.
Paths are modelled by their components. -/
inductive FileSyncEvent where
  | fileUpdate (path : List String)
  | remove (path : List String)
deriving DecidableEq, Repr

/-- Embeds `JobKind` of src/rtest_core/src/jobs/jobs.rs.  Only the payload the
engine itself inspects is modelled: the captured listing output of a
`ListAllTests` job (empty for a freshly created job). -/
inductive JobKind where
  | shadowCopy
  | fileSync (event : FileSyncEvent)
  | buildAllTests
  | buildWorkspace
  | listAllTests (output : Str)
  | runTests
deriving DecidableEq, Repr

/-- The three `BoolFlag` fields of `JobEngine`. -/
structure EngineFlags where
  build_tests_required : Bool
  list_tests_required : Bool
  run_tests_required : Bool
deriving DecidableEq, Repr

/-- Embeds `JobEngine::set_engine_state_flags` (engine.rs lines 226-273):
the follow-up truth table. -/
def set_engine_state_flags (kind : JobKind) (status : CompletionStatus)
    (f : EngineFlags) : EngineFlags :=
  match kind, status with
  | .shadowCopy, .ok => { f with build_tests_required := true }
  | .shadowCopy, .error _ => { f with build_tests_required := false }
  | .fileSync _, .ok => { f with build_tests_required := true }
  | .fileSync _, .error _ => f
  | .buildAllTests, .ok =>
    { f with build_tests_required := false, list_tests_required := true }
  | .buildAllTests, .error _ => { f with build_tests_required := false }
  | .buildWorkspace, .ok => f
  | .buildWorkspace, .error _ => f
  | .listAllTests _, .ok =>
    { f with list_tests_required := false, run_tests_required := true }
  | .listAllTests _, .error _ => { f with list_tests_required := false }
  | .runTests, .ok => { f with run_tests_required := false }
  | .runTests, .error _ => { f with run_tests_required := false }
  | _, .unknown => f

/-- The follow-up consultation of engine.rs lines 169-183: with an empty
pending queue, at most one new job is chosen, in the priority order
build, then list, then run.  A fresh `ListAllTests` job starts with empty
captured output. -/
def follow_up_job (f : EngineFlags) : Option JobKind :=
  if f.build_tests_required then some .buildAllTests
  else if f.list_tests_required then some (.listAllTests [])
  else if f.run_tests_required then some .runTests
  else none

/-- The engine state the executor loop manipulates: the pending queue, the
three flags, and the shared test state. -/
structure JobEngine where
  pending_jobs : List JobKind
  flags : EngineFlags
  state_tests : List CrateTests
deriving DecidableEq, Repr

/-- Embeds `JobEngine::add_job`: append to the pending queue. -/
def add_job (e : JobEngine) (k : JobKind) : JobEngine :=
  { e with pending_jobs := e.pending_jobs ++ [k] }

/-- The first part of the post-execution handling (engine.rs lines
130-141): for a completed `ListAllTests` job the engine calls
`parse_tests().unwrap()` and applies the result to the shared state; a
parse error or a panic inside the parser is therefore a panic of the
executor thread, modelled as `none`.  Other job kinds leave the state
untouched. -/
def apply_parsed_listing (e : JobEngine) (kind : JobKind) : Option JobEngine :=
  match kind with
  | .listAllTests out =>
    match parse_test_list out with
    | .ok tests => some { e with state_tests := update_test_list e.state_tests tests }
    | .err _ => none
    | .panicked => none
  | _ => some e

/-- The remainder of the iteration (engine.rs lines 143-183): update the
flags from the truth table, then — when the pending queue is empty —
enqueue the at most one follow-up job chosen by the flags. -/
def flags_and_follow_up (e : JobEngine) (kind : JobKind)
    (status : CompletionStatus) : JobEngine :=
  let e2 := { e with flags := set_engine_state_flags kind status e.flags }
  if e2.pending_jobs.isEmpty then
    match follow_up_job e2.flags with
    | some j => add_job e2 j
    | none => e2
  else e2

/-- Embeds the post-execution part of one `execute_jobs` iteration
(engine.rs lines 130-183) for a job that has just completed with the
given kind and status: apply the parsed listing to the shared state (a
panic there aborts the thread, modelled as `none`), then update the flags
and enqueue any follow-up job. -/
def execute_jobs_step (e : JobEngine) (kind : JobKind)
    (status : CompletionStatus) : Option JobEngine :=
  match apply_parsed_listing e kind with
  | none => none
  | some e1 => some (flags_and_follow_up e1 kind status)

/-- One full executor iteration: pop the front pending job (parking when
there is none), execute it through the external oracle `exec` — which
returns the completed job's kind (with captured output filled in) and its
completion status — then run the post-execution step. -/
def engine_iteration (e : JobEngine)
    (exec : JobKind → JobKind × CompletionStatus) : Option JobEngine :=
  match e.pending_jobs with
  | [] => some e
  | k :: rest =>
    let r := exec k
    execute_jobs_step { e with pending_jobs := rest } r.1 r.2

/-- The execution oracle in which every job succeeds and captures no
output. -/
def okExec : JobKind → JobKind × CompletionStatus := fun k => (k, .ok)

/-! ## Shadow-copy destination and file-sync jobs
(src/rtest_core/src/shadow_copy_destination.rs, src/rtest/src/jobs/file_sync.rs) -/

/-- A filesystem path, by its components. -/
abbrev RPath := List String

/-- Embeds `DestinationDirectory` of src/rtest_core/src/shadow_copy_destination.rs. -/
inductive DestinationDirectory where
  | sameAsSource
  | namedDirectory (dir : RPath)
  | tempDirectory (dir : RPath)
deriving DecidableEq, Repr

/-- Embeds `DestinationDirectory::is_copying`. -/
def DestinationDirectory.is_copying : DestinationDirectory → Bool
  | .sameAsSource => false
  | .namedDirectory _ => true
  | .tempDirectory _ => true

/-- Embeds `ShadowCopyDestination` of src/rtest_core/src/shadow_copy_destination.rs. -/
structure ShadowCopyDestination where
  source_directory : RPath
  destination : DestinationDirectory
deriving DecidableEq, Repr

/-- Embeds `ShadowCopyDestination::is_copying`. -/
def ShadowCopyDestination.is_copying (d : ShadowCopyDestination) : Bool :=
  d.destination.is_copying

/-- Embeds `ShadowCopyDestination::destination_directory`. -/
def ShadowCopyDestination.destination_directory (d : ShadowCopyDestination) : Option RPath :=
  match d.destination with
  | .sameAsSource => none
  | .namedDirectory dir => some dir
  | .tempDirectory dir => some dir

/-- Embeds `ShadowCopyDestination::cwd`: destination when copying, else source. -/
def ShadowCopyDestination.cwd (d : ShadowCopyDestination) : RPath :=
  if d.is_copying then (d.destination_directory).getD d.source_directory
  else d.source_directory

/-- Embeds `Path::strip_prefix`: the remaining components when `pre` leads `p`. -/
def dropPre : RPath → RPath → Option RPath
  | [], p => some p
  | _ :: _, [] => none
  | x :: xs, y :: ys => if x = y then dropPre xs ys else none

/-- Embeds `ShadowCopyDestination::get_source_sub_path`
(shadow_copy_destination.rs lines 207-209).  The source calls
`strip_prefix(...).unwrap()`: a path that is not below the source
directory gives `none`, which the caller turns into a panic. -/
def get_source_sub_path (d : ShadowCopyDestination) (file : RPath) : Option RPath :=
  dropPre d.source_directory file

/-- Embeds `ShadowCopyDestination::get_path_in_destination`: destination directory
plus the source sub path; `none` models the panics (`unwrap`/`expect`)
when the path is outside the source directory or there is no destination. -/
def get_path_in_destination (d : ShadowCopyDestination) (p : RPath) : Option RPath :=
  match d.destination_directory with
  | none => none
  | some dd =>
    match get_source_sub_path d p with
    | none => none
    | some sub => some (dd ++ sub)

/-- The filesystem facts and effects a file-sync job consults, abstracted
as an oracle: whether a path is a file or a directory, and whether the
copy (with its create-parent-and-retry fallback) or removal succeeds. -/
structure FsOracle where
  is_file : RPath → Bool
  is_dir : RPath → Bool
  copyOk : RPath → RPath → Bool
  removeOk : RPath → Bool

/-- Embeds `ShadowCopyDestination::copy_file`: `some false` without
copying when mirroring is disabled, `none` for the panic on an
out-of-source path, otherwise the copy outcome. -/
def copy_file (fs : FsOracle) (d : ShadowCopyDestination) (p : RPath) : Option Bool :=
  if !d.is_copying then some false
  else
    match get_path_in_destination d p with
    | none => none
    | some dest => some (fs.copyOk p dest)

/-- Embeds `ShadowCopyDestination::remove_file_or_directory`. -/
def remove_file_or_directory (fs : FsOracle) (d : ShadowCopyDestination) (p : RPath) :
    Option Bool :=
  if !d.is_copying then some false
  else
    match get_path_in_destination d p with
    | none => none
    | some dest => some (fs.removeOk dest)

/-- Outcome of running a job body: a Rust panic, or a completion status. -/
inductive ExecOutcome where
  | panicked
  | completed (status : CompletionStatus)
deriving DecidableEq, Repr

/-- Error message of the update branch when the event's path is not a file
(`format!` rendering elided to the fixed text). -/
def notAFileMsg : Str := "The path is not a file".data

/-- Error message of the update branch when the copy fails. -/
def copyFailedMsg : Str := "Copying file failed".data

/-- Error message of the remove branch when the removal fails. -/
def removeFailedMsg : Str := "Removing path failed".data

/-- Embeds `FileSyncJob::execute` (src/rtest/src/jobs/file_sync.rs lines
47-69): an update event copies the path when it is currently a file, a
remove event removes the mirror path; a `none` from the destination layer
is a panic of the executing thread. -/
def FileSyncJob.execute (fs : FsOracle) (d : ShadowCopyDestination)
    (ev : FileSyncEvent) : ExecOutcome :=
  match ev with
  | .fileUpdate p =>
    if fs.is_file p then
      match copy_file fs d p with
      | none => .panicked
      | some true => .completed .ok
      | some false => .completed (.error copyFailedMsg)
    else .completed (.error notAFileMsg)
  | .remove p =>
    match remove_file_or_directory fs d p with
    | none => .panicked
    | some true => .completed .ok
    | some false => .completed (.error removeFailedMsg)

/-! ## File-event coalescer (src/rtest_core/src/source_directory_watcher.rs) -/

/-- The operation bit flags of a `watchexec` `PathOp`. -/
structure OpFlags where
  create : Bool
  write : Bool
  rename : Bool
  chmod : Bool
  removeFl : Bool
deriving DecidableEq, Repr

/-- A raw `PathOp`: a path and an optional flag set. -/
structure PathOp where
  path : RPath
  op : Option OpFlags
deriving DecidableEq, Repr

/-- Embeds the `send_event` helper of `FileEventHandler::on_update`
(source_directory_watcher.rs lines 122-140): a remove flag yields
`Remove`; otherwise a path that currently is a file with a
create/rename/write flag yields `FileUpdate`; anything else sends
nothing.  (Both call sites only pass operations whose flags are present.) -/
def send_event (isF : RPath → Bool) (op : PathOp) : Option FileSyncEvent :=
  match op.op with
  | none => none
  | some fl =>
    if fl.removeFl then some (.remove op.path)
    else if isF op.path && (fl.create || fl.rename || fl.write) then
      some (.fileUpdate op.path)
    else none

/-- One entry of the coalescing `HashMap<PathBuf, (usize, &PathOp)>`: the
path, the insertion rank `ord` (the map's size when the path was first
seen), and the operation currently recorded for the path. -/
structure CoEntry where
  path : RPath
  ord : Nat
  pop : PathOp
deriving DecidableEq, Repr

/-- One step of building the coalescing map (the `for op in ops` loop of
on_update lines 155-169): operations without flags are skipped; an
occupied entry keeps its rank but takes the new operation; a vacant entry
is added with the current map size as its rank. -/
def coalesceStep (acc : List CoEntry) (op : PathOp) : List CoEntry :=
  match op.op with
  | none => acc
  | some _ =>
    if acc.any (fun e => e.path = op.path) then
      acc.map (fun e => if e.path = op.path then { e with pop := op } else e)
    else acc ++ [⟨op.path, acc.length, op⟩]

/-- The relation of `sort_by_key(|tpl| tpl.0)` on the coalesced entries. -/
def ordLe (a b : CoEntry) : Prop := a.ord ≤ b.ord

instance : DecidableRel ordLe := fun a b => by
  unfold ordLe; infer_instance

/-- Embeds `FileEventHandler::on_update` (source_directory_watcher.rs
lines 120-193): the single-operation fast path, or build the per-path map,
order the survivors by their rank, and send each through `send_event`.
(The map's iteration order is irrelevant because of the stable sort by
rank.) -/
def on_update (isF : RPath → Bool) (ops : List PathOp) : List FileSyncEvent :=
  if ops.length = 1 then
    match ops with
    | [op] => if op.op.isSome then (send_event isF op).toList else []
    | _ => []
  else
    ((ops.foldl coalesceStep []).insertionSort ordLe).filterMap
      (fun e => send_event isF e.pop)

/-- The last flagged operation for path `p` in `ops`, if any. -/
def lastOpFor (ops : List PathOp) (p : RPath) : Option PathOp :=
  ops.foldl (fun acc o => if o.op.isSome ∧ o.path = p then some o else acc) none

/-- The coalescing rule in its amended reading, written directly from the
words: walk the batch; at the first occurrence of each flagged path (paths
in `seen` are skipped), keep the last flagged operation for that path,
ranked in order of first occurrence starting at `k`. -/
def coalesceSpec : List PathOp → List RPath → Nat → List CoEntry
  | [], _, _ => []
  | o :: rest, seen, k =>
    if o.op.isNone ∨ o.path ∈ seen then coalesceSpec rest seen k
    else ⟨o.path, k, (lastOpFor rest o.path).getD o⟩ ::
      coalesceSpec rest (seen ++ [o.path]) (k + 1)

/-- The claim's reading of the coalescing rule, written directly from its
words ("retain only the last operation seen per distinct path, preserving
the original arrival order of the surviving operations"): an operation
survives when it is flagged and no later flagged operation shares its
path, and survivors are kept in their own arrival order. -/
def claimedSurvivors : List PathOp → List PathOp
  | [] => []
  | o :: rest =>
    if o.op.isSome ∧ ¬ (rest.any (fun o2 => o2.op.isSome && o2.path = o.path)) then
      o :: claimedSurvivors rest
    else claimedSurvivors rest

/-- Embeds `on_update` as the claim's words describe it. -/
def claimed_on_update (isF : RPath → Bool) (ops : List PathOp) : List FileSyncEvent :=
  (claimedSurvivors ops).filterMap (send_event isF)

/-! ## Run-tests job (src/rtest/src/jobs/run_tests.rs) -/

/-- A child-process invocation: program, arguments, working directory. -/
structure CommandSpec where
  program : String
  args : List String
  cwd : RPath
deriving DecidableEq, Repr

/-- Embeds the command construction of `RunTestsJob::execute`
(run_tests.rs lines 41-67): the working directory is the destination
directory when copying, else the source directory, and the only argument
passed to `cargo` is `test`. -/
def RunTestsJob.buildCommand (d : ShadowCopyDestination) : CommandSpec :=
  { program := "cargo"
    args := ["test"]
    cwd :=
      if d.is_copying then (d.destination_directory).getD d.source_directory
      else d.source_directory }

/-- The argument list the claim (and the spec's command table) prescribe
for a test run. -/
def claimedRunTestsArgs : List String :=
  ["test", "--no-fail-fast", "--", "--show-output", "--test-threads=1", "--color", "never"]

/-! ## Spec-side definitions for the shared-state refinement (claim C4) -/

/-- Modelled from the spec (section 4.6 and the persistent-state data
model): a per-crate record with a unit-test mapping and a doc-test mapping
of the same shape. -/
structure SpecCrateTests where
  crate_name : CrateName
  unit_tests : UtMap
  doc_tests : UtMap
deriving DecidableEq, Repr

/-- Modelled from the spec: the rebuilt mapping carries over entries
present in both old and new under the same name and inserts fresh `NotRun`
entries for newly seen names (names absent from the new listing are
dropped). -/
def specRebuild (old : UtMap) (names : List Str) : UtMap :=
  names.map (fun nm => (nm, (hmLookup nm old).getD (UnitTest.new nm)))

/-- The sort relation on the spec-side crates (by `name`). -/
def specCrateLe (x y : SpecCrateTests) : Prop :=
  strLtB y.crate_name.name x.crate_name.name = false

instance : DecidableRel specCrateLe := fun x y => by
  unfold specCrateLe; infer_instance

/-- Splits a spec-side crate list at the first entry with a full name. -/
def specSplitFullName (l : List SpecCrateTests) (fn : Str) :
    Option (List SpecCrateTests × SpecCrateTests × List SpecCrateTests) :=
  match l with
  | [] => none
  | c :: rest =>
    if c.crate_name.full_name == fn then some ([], c, rest)
    else
      match specSplitFullName rest fn with
      | none => none
      | some (b, x, a) => some (c :: b, x, a)

/-- Modelled from the spec (section 4.6): after a successful listing both
the unit-test and the doc-test mapping of the crate are replaced by
rebuilt versions, and the crates are kept sorted by `name`. -/
def spec_update_test_list_for_crate (sts : List SpecCrateTests) (t : Tests) :
    List SpecCrateTests :=
  let docNames := t.doc_tests.map (fun d => d.name)
  match specSplitFullName sts t.crate_name.full_name with
  | some (b, crt, a) =>
    let crt2 : SpecCrateTests :=
      { crt with
        unit_tests := specRebuild crt.unit_tests t.tests
        doc_tests := specRebuild crt.doc_tests docNames }
    (b ++ [crt2] ++ a).insertionSort specCrateLe
  | none =>
    let crt2 : SpecCrateTests :=
      { crate_name := t.crate_name
        unit_tests := specRebuild [] t.tests
        doc_tests := specRebuild [] docNames }
    (sts ++ [crt2]).insertionSort specCrateLe

/-- The abstraction of the implementation's per-crate state into the
spec-side shape: the implementation stores no doc-test information, so the
doc-test mapping of the abstraction is empty. -/
def absCrate (c : CrateTests) : SpecCrateTests :=
  ⟨c.crate_name, c.unit_tests, []⟩

/-- State-level abstraction. -/
def absState (l : List CrateTests) : List SpecCrateTests := l.map absCrate

/-- Whether a parse outcome is a success. -/
def isOkOutcome : ParseOutcome → Bool
  | .ok _ => true
  | _ => false

/-- Whether a parse outcome is a parse error. -/
def isErrOutcome : ParseOutcome → Bool
  | .err _ => true
  | _ => false

/-! ## Helper lemmas -/

/-- Applying the parsed listing leaves the pending queue and flags
untouched whenever it does not panic. -/
theorem apply_parsed_listing_fields :
    ∀ (e e1 : JobEngine) (k : JobKind),
      apply_parsed_listing e k = some e1 →
      e1.pending_jobs = e.pending_jobs ∧ e1.flags = e.flags := by
  intro e e1 k h
  cases k with
  | listAllTests out =>
    cases hp : parse_test_list out with
    | ok ts =>
      simp only [apply_parsed_listing, hp] at h
      injection h with h2
      rw [← h2]; exact ⟨rfl, rfl⟩
    | err pe => simp [apply_parsed_listing, hp] at h
    | panicked => simp [apply_parsed_listing, hp] at h
  | shadowCopy => injection h with h2; rw [← h2]; exact ⟨rfl, rfl⟩
  | fileSync ev => injection h with h2; rw [← h2]; exact ⟨rfl, rfl⟩
  | buildAllTests => injection h with h2; rw [← h2]; exact ⟨rfl, rfl⟩
  | buildWorkspace => injection h with h2; rw [← h2]; exact ⟨rfl, rfl⟩
  | runTests => injection h with h2; rw [← h2]; exact ⟨rfl, rfl⟩

/-- Field characterisation of the flags-and-follow-up stage: the flags are
set from the truth table, and the pending queue receives the chosen
follow-up job exactly when it was empty. -/
theorem flags_and_follow_up_fields :
    ∀ (e : JobEngine) (k : JobKind) (s : CompletionStatus),
      (flags_and_follow_up e k s).flags = set_engine_state_flags k s e.flags ∧
      (flags_and_follow_up e k s).pending_jobs =
        (if e.pending_jobs.isEmpty then
          (match follow_up_job (set_engine_state_flags k s e.flags) with
            | some j => [j]
            | none => [])
          else e.pending_jobs) := by
  intro e k s
  unfold flags_and_follow_up
  by_cases hq : e.pending_jobs.isEmpty
  · have hnil : e.pending_jobs = [] := List.isEmpty_iff.mp hq
    cases hj : follow_up_job (set_engine_state_flags k s e.flags) with
    | some j => simp [hq, hj, add_job, hnil]
    | none => simp [hq, hj, hnil]
  · simp [hq]

/-! ## Claim theorems -/

/-- C5 theorem: a RunTests execution invokes plain `cargo` with the single
argument `test` in the effective working directory; the argument list is
not the seven-argument list the specification's command table prescribes. -/
theorem run_tests_command_missing_args :
    (RunTestsJob.buildCommand ⟨["w"], .sameAsSource⟩).program = "cargo" ∧
    (RunTestsJob.buildCommand ⟨["w"], .sameAsSource⟩).args = ["test"] ∧
    (RunTestsJob.buildCommand ⟨["w"], .namedDirectory ["d"]⟩).args = ["test"] ∧
    (RunTestsJob.buildCommand ⟨["w"], .sameAsSource⟩).args ≠ claimedRunTestsArgs ∧
    (RunTestsJob.buildCommand ⟨["w"], .namedDirectory ["d"]⟩).cwd =
      ShadowCopyDestination.cwd ⟨["w"], .namedDirectory ["d"]⟩ ∧
    (RunTestsJob.buildCommand ⟨["w"], .sameAsSource⟩).cwd =
      ShadowCopyDestination.cwd ⟨["w"], .sameAsSource⟩ := by
  refine ⟨rfl, rfl, rfl, ?_, rfl, rfl⟩
  decide

/-- C6 theorem: `parse_test_list` panics (the modelled `unwrap` in the
Doc-tests branch of lib.rs) on the input `Doc-tests foo-bar`, whose
crate-name suffix after the final dash is not 16 hex digits;
`CrateName::parse` itself reports `MalformedUuid` for that name. -/
theorem doc_tests_header_bad_uuid_panics :
    parse_test_list "Doc-tests foo-bar".data = .panicked ∧
    CrateName.parse "foo-bar".data 1 "Doc-tests foo-bar".data =
      .error ⟨1, "Doc-tests foo-bar".data, .malformedUuid, []⟩ :=
  ⟨by decide, rfl⟩

/-- C1 counterexample: the captured output `Running foo-bar` fails to
parse, yet the engine's post-completion step for such a ListAllTests job
is a panic (`parse_tests().unwrap()` in engine.rs line 137), not a
recorded `Error` completion. -/
theorem listalltests_parse_failure_panics :
    isErrOutcome (parse_test_list "Running foo-bar".data) = true ∧
    execute_jobs_step ⟨[], ⟨false, false, false⟩, []⟩
      (.listAllTests "Running foo-bar".data) .ok = none :=
  ⟨by decide, by decide⟩

/-- C1 amended theorem: whenever the captured listing output of a
completed ListAllTests job does not parse successfully, the engine's
post-completion step panics — no completion (neither `Ok` nor `Error`) is
processed further. -/
theorem engine_panics_when_listing_unparseable :
    ∀ (e : JobEngine) (out : Str) (s : CompletionStatus),
      isOkOutcome (parse_test_list out) = false →
      execute_jobs_step e (.listAllTests out) s = none := by
  intro e out s h
  unfold execute_jobs_step
  cases hp : parse_test_list out with
  | ok ts => rw [hp] at h; exact absurd h (by simp [isOkOutcome])
  | err e2 => simp [apply_parsed_listing, hp]
  | panicked => simp [apply_parsed_listing, hp]

/-- Witness for the C1 amended theorem at a concrete unparseable output. -/
theorem engine_panics_when_listing_unparseable_witness :
    execute_jobs_step ⟨[], ⟨false, false, false⟩, []⟩
      (.listAllTests "Running foo-bar".data) .unknown = none :=
  engine_panics_when_listing_unparseable ⟨[], ⟨false, false, false⟩, []⟩
    "Running foo-bar".data .unknown (by decide)

/-- C2 theorem: the flag edits of `set_engine_state_flags` follow the
truth table exactly for every completed job, and after a failing
BuildAllTests the follow-up consultation can pick ListAllTests only when
`list_tests_required` was already true beforehand — the failure itself
never causes one to be scheduled. -/
theorem engine_flag_truth_table :
    ∀ (f : EngineFlags) (msg : Str) (ev : FileSyncEvent) (out : Str),
      set_engine_state_flags .shadowCopy .ok f = { f with build_tests_required := true } ∧
      set_engine_state_flags .shadowCopy (.error msg) f = { f with build_tests_required := false } ∧
      set_engine_state_flags (.fileSync ev) .ok f = { f with build_tests_required := true } ∧
      set_engine_state_flags (.fileSync ev) (.error msg) f = f ∧
      set_engine_state_flags .buildAllTests .ok f =
        { f with build_tests_required := false, list_tests_required := true } ∧
      set_engine_state_flags .buildAllTests (.error msg) f =
        { f with build_tests_required := false } ∧
      set_engine_state_flags .buildWorkspace .ok f = f ∧
      set_engine_state_flags .buildWorkspace (.error msg) f = f ∧
      set_engine_state_flags (.listAllTests out) .ok f =
        { f with list_tests_required := false, run_tests_required := true } ∧
      set_engine_state_flags (.listAllTests out) (.error msg) f =
        { f with list_tests_required := false } ∧
      set_engine_state_flags .runTests .ok f = { f with run_tests_required := false } ∧
      set_engine_state_flags .runTests (.error msg) f = { f with run_tests_required := false } ∧
      follow_up_job (set_engine_state_flags .buildAllTests (.error msg) f) =
        (if f.list_tests_required then some (.listAllTests []) else
          if f.run_tests_required then some .runTests else none) := by
  intro f msg ev out
  exact ⟨rfl, rfl, rfl, rfl, rfl, rfl, rfl, rfl, rfl, rfl, rfl, rfl, rfl⟩

/-- C3 theorem: from the idle engine with all flags false, a successful
ShadowCopy synthesises exactly one BuildAllTests, whose success
synthesises exactly one ListAllTests, whose success synthesises exactly
one RunTests, after which the engine is idle and an iteration changes
nothing; and in general one execution step enqueues a follow-up only when
the pending queue is empty, at most one job, the one chosen by
`follow_up_job` from the updated flags (priority build, list, run). -/
theorem engine_follow_up_chain :
    (engine_iteration (add_job ⟨[], ⟨false, false, false⟩, []⟩ .shadowCopy) okExec =
      some ⟨[.buildAllTests], ⟨true, false, false⟩, []⟩) ∧
    (engine_iteration ⟨[.buildAllTests], ⟨true, false, false⟩, []⟩ okExec =
      some ⟨[.listAllTests []], ⟨false, true, false⟩, []⟩) ∧
    (engine_iteration ⟨[.listAllTests []], ⟨false, true, false⟩, []⟩ okExec =
      some ⟨[.runTests], ⟨false, false, true⟩, []⟩) ∧
    (engine_iteration ⟨[.runTests], ⟨false, false, true⟩, []⟩ okExec =
      some ⟨[], ⟨false, false, false⟩, []⟩) ∧
    (engine_iteration ⟨[], ⟨false, false, false⟩, []⟩ okExec =
      some ⟨[], ⟨false, false, false⟩, []⟩) ∧
    (∀ (e e2 : JobEngine) (k : JobKind) (s : CompletionStatus),
      execute_jobs_step e k s = some e2 →
      e2.flags = set_engine_state_flags k s e.flags ∧
      e2.pending_jobs =
        (if e.pending_jobs.isEmpty then
          (match follow_up_job (set_engine_state_flags k s e.flags) with
            | some j => [j]
            | none => [])
          else e.pending_jobs)) := by
  refine ⟨by decide, by decide, by decide, by decide, by decide, ?_⟩
  intro e e2 k s h
  unfold execute_jobs_step at h
  cases hap : apply_parsed_listing e k with
  | none => rw [hap] at h; cases h
  | some e1 =>
    rw [hap] at h
    injection h with h2
    obtain ⟨hp1, hf1⟩ := apply_parsed_listing_fields e e1 k hap
    obtain ⟨hfa, hfb⟩ := flags_and_follow_up_fields e1 k s
    rw [← h2]
    rw [hfa, hfb, hp1, hf1]
    exact ⟨rfl, rfl⟩

/-- Witness for the generic part of the follow-up theorem, at a concrete
completed job. -/
theorem engine_follow_up_chain_witness :
    (⟨[.buildAllTests], ⟨true, false, false⟩, []⟩ : JobEngine).flags =
      set_engine_state_flags .shadowCopy .ok ⟨false, false, false⟩ ∧
    (⟨[.buildAllTests], ⟨true, false, false⟩, []⟩ : JobEngine).pending_jobs =
      (if ((⟨[], ⟨false, false, false⟩, []⟩ : JobEngine)).pending_jobs.isEmpty then
        (match follow_up_job (set_engine_state_flags .shadowCopy .ok ⟨false, false, false⟩) with
          | some j => [j]
          | none => [])
        else ((⟨[], ⟨false, false, false⟩, []⟩ : JobEngine)).pending_jobs) :=
  engine_follow_up_chain.2.2.2.2.2 ⟨[], ⟨false, false, false⟩, []⟩
    ⟨[.buildAllTests], ⟨true, false, false⟩, []⟩ .shadowCopy .ok (by decide)

/-- C4 counterexample: updating the empty state with a listing for crate
`wibble` that contains one doc test yields a state whose abstraction
differs from the spec-side update — the implementation records nothing
about doc tests (its per-crate state has no doc-test mapping; the source
marks this as a `TODO`). -/
theorem state_update_drops_doc_tests :
    absState (update_test_list_for_crate []
        ⟨⟨"wibble".data, [], "wibble".data, "wibble".data⟩, [],
          [⟨"one_doc".data, 9, "src/lib.rs".data⟩]⟩) ≠
      spec_update_test_list_for_crate (absState [])
        ⟨⟨"wibble".data, [], "wibble".data, "wibble".data⟩, [],
          [⟨"one_doc".data, 9, "src/lib.rs".data⟩]⟩ := by
  decide

/-- C7 counterexample: a remove event for `/outside/f.rs`, which is not
below the source directory `/src`, makes the file-sync job panic in
`get_source_sub_path` (`strip_prefix(..).unwrap()`), rather than being
dropped without error and without panic. -/
theorem outside_source_event_panics :
    get_source_sub_path ⟨["src"], .namedDirectory ["dest"]⟩ ["outside", "f.rs"] = none ∧
    FileSyncJob.execute
      ⟨fun _ => false, fun _ => false, fun _ _ => false, fun _ => false⟩
      ⟨["src"], .namedDirectory ["dest"]⟩ (.remove ["outside", "f.rs"]) = .panicked :=
  ⟨rfl, rfl⟩

/-- C7 amended theorem: with mirroring enabled, a file-sync event whose
path is not below the source directory is never dropped: a remove event
panics, an update event for a path that currently is a file panics, and an
update event for a non-file completes with an `Error`. -/
theorem outside_source_event_not_dropped :
    ∀ (fs : FsOracle) (d : ShadowCopyDestination) (p : RPath),
      d.is_copying = true →
      get_source_sub_path d p = none →
      FileSyncJob.execute fs d (.remove p) = .panicked ∧
      (fs.is_file p = true → FileSyncJob.execute fs d (.fileUpdate p) = .panicked) ∧
      (fs.is_file p = false →
        FileSyncJob.execute fs d (.fileUpdate p) = .completed (.error notAFileMsg)) := by
  intro fs d p hc hsub
  obtain ⟨src, dest⟩ := d
  have hdd : ∃ dd, ShadowCopyDestination.destination_directory ⟨src, dest⟩ = some dd := by
    cases dest with
    | sameAsSource => exact absurd hc (by simp [ShadowCopyDestination.is_copying,
        DestinationDirectory.is_copying])
    | namedDirectory dir => exact ⟨dir, rfl⟩
    | tempDirectory dir => exact ⟨dir, rfl⟩
  obtain ⟨dd, hdd⟩ := hdd
  have hpd : get_path_in_destination ⟨src, dest⟩ p = none := by
    unfold get_path_in_destination
    rw [hdd, hsub]
  refine ⟨?_, ?_, ?_⟩
  · simp [FileSyncJob.execute, remove_file_or_directory, hc, hpd]
  · intro hf
    simp [FileSyncJob.execute, copy_file, hf, hc, hpd]
  · intro hf
    simp [FileSyncJob.execute, hf]

/-- Witness for the C7 amended theorem at a concrete destination, path and
filesystem. -/
theorem outside_source_event_not_dropped_witness :
    FileSyncJob.execute
      ⟨fun _ => false, fun _ => false, fun _ _ => false, fun _ => false⟩
      ⟨["src"], .tempDirectory ["tmp"]⟩ (.remove ["elsewhere"]) = .panicked ∧
    FileSyncJob.execute
      ⟨fun _ => false, fun _ => false, fun _ _ => false, fun _ => false⟩
      ⟨["src"], .tempDirectory ["tmp"]⟩ (.fileUpdate ["elsewhere"]) =
      .completed (.error notAFileMsg) :=
  ⟨(outside_source_event_not_dropped
      ⟨fun _ => false, fun _ => false, fun _ _ => false, fun _ => false⟩
      ⟨["src"], .tempDirectory ["tmp"]⟩ ["elsewhere"] (by decide) (by decide)).1,
    (outside_source_event_not_dropped
      ⟨fun _ => false, fun _ => false, fun _ _ => false, fun _ => false⟩
      ⟨["src"], .tempDirectory ["tmp"]⟩ ["elsewhere"] (by decide) (by decide)).2.2 rfl⟩

/-- C8 counterexample: in the batch write(a), remove(b), remove(a) the
surviving operations are remove(b) (arrived second) and remove(a)
(arrived third); the claim's reading predicts emission order b then a,
but `on_update` emits a then b (survivors are ranked by each path's first
occurrence, fixed when the path first enters the coalescing map). -/
theorem coalescer_emission_order_differs :
    on_update (fun _ => false)
        [⟨["a.rs"], some ⟨false, true, false, false, false⟩⟩,
          ⟨["b.rs"], some ⟨false, false, false, false, true⟩⟩,
          ⟨["a.rs"], some ⟨false, false, false, false, true⟩⟩] =
      [.remove ["a.rs"], .remove ["b.rs"]] ∧
    claimed_on_update (fun _ => false)
        [⟨["a.rs"], some ⟨false, true, false, false, false⟩⟩,
          ⟨["b.rs"], some ⟨false, false, false, false, true⟩⟩,
          ⟨["a.rs"], some ⟨false, false, false, false, true⟩⟩] =
      [.remove ["b.rs"], .remove ["a.rs"]] ∧
    on_update (fun _ => false)
        [⟨["a.rs"], some ⟨false, true, false, false, false⟩⟩,
          ⟨["b.rs"], some ⟨false, false, false, false, true⟩⟩,
          ⟨["a.rs"], some ⟨false, false, false, false, true⟩⟩] ≠
      claimed_on_update (fun _ => false)
        [⟨["a.rs"], some ⟨false, true, false, false, false⟩⟩,
          ⟨["b.rs"], some ⟨false, false, false, false, true⟩⟩,
          ⟨["a.rs"], some ⟨false, false, false, false, true⟩⟩] := by
  refine ⟨by decide, by decide, by decide⟩

/-- C9 counterexample: the line `2 test, 0 benchmarks` satisfies the
claim's acceptance conditions (first half ends with " test" with leading
integer 2, second half ends with " benchmarks" with leading integer 0) but
summary parsing returns no match; the singular form is only accepted with
the literal digit 1 in front, as the companions show. -/
theorem summary_two_test_rejected :
    parse_test_summary_count "2 test, 0 benchmarks".data = none ∧
    parse_test_summary_count "1 test, 0 benchmarks".data = some (1, 0) ∧
    parse_test_summary_count "21 test, 0 benchmarks".data = some (21, 0) ∧
    parse_test_summary_count "2 tests, 1 benchmark".data = some (2, 1) ∧
    parse_test_summary_count "2 tests, 3 benchmark".data = none := by
  refine ⟨by decide, by decide, by decide, by decide, by decide⟩

/-! ## Lemmas for the shared-state update (claim C4) -/

theorem hmRemove_fst (k : Str) (m : UtMap) : (hmRemove k m).1 = hmLookup k m := by
  induction m with
  | nil => rfl
  | cons e rest ih =>
    obtain ⟨k2, v⟩ := e
    by_cases h : k = k2 <;> simp [hmRemove, hmLookup, h, ih]

theorem hmRemove_lookup_ne (k nm : Str) (m : UtMap) (h : nm ≠ k) :
    hmLookup nm (hmRemove k m).2 = hmLookup nm m := by
  induction m with
  | nil => rfl
  | cons e rest ih =>
    obtain ⟨k2, v⟩ := e
    by_cases h2 : k = k2
    · subst h2
      simp [hmRemove, hmLookup, h]
    · by_cases h3 : nm = k2 <;> simp [hmRemove, hmLookup, h2, h3, ih]

theorem hmInsert_lookup_self (k : Str) (v : UnitTest) (m : UtMap) :
    hmLookup k (hmInsert k v m) = some v := by
  induction m with
  | nil => simp [hmInsert, hmLookup]
  | cons e rest ih =>
    obtain ⟨k2, v2⟩ := e
    by_cases h : k = k2 <;> simp [hmInsert, hmLookup, h, ih]

theorem hmInsert_lookup_ne (k nm : Str) (v : UnitTest) (m : UtMap) (h : nm ≠ k) :
    hmLookup nm (hmInsert k v m) = hmLookup nm m := by
  induction m with
  | nil => simp [hmInsert, hmLookup, h]
  | cons e rest ih =>
    obtain ⟨k2, v2⟩ := e
    by_cases h2 : k = k2
    · subst h2
      simp [hmInsert, hmLookup, h]
    · by_cases h3 : nm = k2 <;> simp [hmInsert, hmLookup, h2, h3, ih]

/-- Lookup characterisation of the rebuild loop, for listings without
duplicate names: a listed name keeps its old entry when one existed and
gets a fresh `NotRun` entry otherwise; an unlisted name falls back to the
accumulator. -/
theorem rebuildGo_lookup :
    ∀ (names : List Str) (old upd : UtMap) (nm : Str), names.Nodup →
      hmLookup nm (rebuildGo old upd names) =
        if nm ∈ names then some ((hmLookup nm old).getD (UnitTest.new nm))
        else hmLookup nm upd := by
  intro names
  induction names with
  | nil => intro old upd nm _; simp [rebuildGo]
  | cons m rest ih =>
    intro old upd nm h
    have hnd := List.nodup_cons.mp h
    unfold rebuildGo
    rw [ih _ _ nm hnd.2]
    by_cases hn : nm ∈ rest
    · have hne : nm ≠ m := fun e => hnd.1 (e ▸ hn)
      rw [if_pos hn, if_pos (List.mem_cons_of_mem m hn)]
      rw [hmRemove_lookup_ne m nm old hne]
    · rw [if_neg hn]
      by_cases he : nm = m
      · subst he
        rw [if_pos (List.mem_cons_self nm rest)]
        rw [hmInsert_lookup_self, hmRemove_fst]
      · rw [if_neg (by simp [he, hn]), hmInsert_lookup_ne _ _ _ _ he]

theorem strLtB_asymm : ∀ a b : Str, strLtB a b = true → strLtB b a = false := by
  intro a
  induction a with
  | nil => intro b h; cases b <;> simp_all [strLtB]
  | cons c cs ih =>
    intro b h
    cases b with
    | nil => simp_all [strLtB]
    | cons d ds =>
      simp only [strLtB] at h ⊢
      by_cases h1 : c.toNat < d.toNat
      · rw [if_neg (by omega), if_pos h1]
      · rw [if_neg h1] at h
        by_cases h2 : d.toNat < c.toNat
        · rw [if_pos h2] at h; cases h
        · rw [if_neg h2] at h
          rw [if_neg h2, if_neg h1]
          exact ih ds h

theorem strLtB_trans : ∀ a b c : Str, strLtB a b = true → strLtB b c = true →
    strLtB a c = true := by
  intro a
  induction a with
  | nil =>
    intro b c h1 h2
    cases b <;> cases c <;> simp_all [strLtB]
  | cons x xs ih =>
    intro b c h1 h2
    cases b with
    | nil => simp_all [strLtB]
    | cons y ys =>
      cases c with
      | nil => simp_all [strLtB]
      | cons z zs =>
        simp only [strLtB] at h1 h2 ⊢
        by_cases hxy : x.toNat < y.toNat
        · by_cases hyz : y.toNat < z.toNat
          · rw [if_pos (by omega)]
          · rw [if_neg hyz] at h2
            by_cases hzy : z.toNat < y.toNat
            · rw [if_pos hzy] at h2; cases h2
            · have : y.toNat = z.toNat := by omega
              rw [if_pos (by omega)]
        · rw [if_neg hxy] at h1
          by_cases hyx : y.toNat < x.toNat
          · rw [if_pos hyx] at h1; cases h1
          · rw [if_neg hyx] at h1
            have hxe : x.toNat = y.toNat := by omega
            by_cases hyz : y.toNat < z.toNat
            · rw [if_pos (by omega)]
            · rw [if_neg hyz] at h2
              by_cases hzy : z.toNat < y.toNat
              · rw [if_pos hzy] at h2; cases h2
              · rw [if_neg hzy] at h2
                rw [if_neg (by omega), if_neg (by omega)]
                exact ih ys zs h1 h2

theorem charToNat_inj : ∀ c d : Char, c.toNat = d.toNat → c = d := by
  intro c d h
  apply Char.ext
  exact UInt32.ext h

theorem strLtB_connex : ∀ a b : Str, strLtB a b = false → strLtB b a = false → a = b := by
  intro a
  induction a with
  | nil => intro b h1 _; cases b <;> simp_all [strLtB]
  | cons c cs ih =>
    intro b h1 h2
    cases b with
    | nil => simp_all [strLtB]
    | cons d ds =>
      simp only [strLtB] at h1 h2
      by_cases hcd : c.toNat < d.toNat
      · rw [if_pos hcd] at h1; cases h1
      · rw [if_neg hcd] at h1
        by_cases hdc : d.toNat < c.toNat
        · rw [if_pos hdc] at h2
          cases h2
        · rw [if_neg hdc] at h1
          rw [if_neg hdc, if_neg hcd] at h2
          have hce : c = d := charToNat_inj c d (by omega)
          rw [hce, ih ds h1 h2]

instance : IsTrans CrateTests crateLe := by
  constructor
  intro x y z h1 h2
  unfold crateLe at h1 h2 ⊢
  by_cases hca : strLtB z.crate_name.name x.crate_name.name = true
  · by_cases hcb : strLtB x.crate_name.name y.crate_name.name = true
    · have := strLtB_trans _ _ _ hca hcb
      rw [this] at h2; cases h2
    · have hx : strLtB x.crate_name.name y.crate_name.name = false := by
        revert hcb; cases strLtB x.crate_name.name y.crate_name.name <;> simp
      have := strLtB_connex _ _ hx h1
      rw [← this] at h2
      rw [hca] at h2; cases h2
  · revert hca; cases strLtB z.crate_name.name x.crate_name.name <;> simp

instance : IsTotal CrateTests crateLe := by
  constructor
  intro x y
  unfold crateLe
  by_cases h : strLtB y.crate_name.name x.crate_name.name = true
  · right
    exact strLtB_asymm _ _ h
  · left
    revert h; cases strLtB y.crate_name.name x.crate_name.name <;> simp

/-- The update always leaves the crates sorted by `name`. -/
theorem sortCrates_sorted (l : List CrateTests) : List.Sorted crateLe (sortCrates l) :=
  List.sorted_insertionSort crateLe l

/-- C4 amended theorem: after a listing update the per-crate unit-test
mapping is the rebuilt one — for duplicate-free listings, every listed
name keeps its previous entry when one existed and otherwise gets a fresh
`NotRun` entry, and every unlisted name is dropped; the parsed doc tests
have no effect on the state at all (the implementation keeps no doc-test
mapping); and the crates are always left sorted by `name`. -/
theorem state_unit_test_mapping_rebuilt :
    ∀ (crt : CrateTests) (t : Tests) (nm : Str) (sts : List CrateTests)
      (cn : CrateName) (us : List Str) (ds : List DocTest),
      (t.tests.Nodup →
        hmLookup nm (rebuildUnitTests crt.unit_tests t.tests) =
          if nm ∈ t.tests then some ((hmLookup nm crt.unit_tests).getD (UnitTest.new nm))
          else none) ∧
      update_test_list_for_crate sts ⟨cn, us, ds⟩ =
        update_test_list_for_crate sts ⟨cn, us, []⟩ ∧
      List.Sorted crateLe (update_test_list_for_crate sts t) := by
  intro crt t nm sts cn us ds
  refine ⟨?_, rfl, ?_⟩
  · intro hnd
    unfold rebuildUnitTests
    rw [rebuildGo_lookup t.tests crt.unit_tests [] nm hnd]
    by_cases h : nm ∈ t.tests <;> simp [h, hmLookup]
  · unfold update_test_list_for_crate
    split
    · exact sortCrates_sorted _
    · exact sortCrates_sorted _

/-- Witness for the C4 amended theorem at a concrete crate, listing and
looked-up name. -/
theorem state_unit_test_mapping_rebuilt_witness :
    (hmLookup "a".data
        (rebuildUnitTests [("a".data, ⟨"a".data, .passed, 3⟩)] ["a".data, "b".data]) =
      if "a".data ∈ ["a".data, "b".data] then
        some ((hmLookup "a".data [("a".data, ⟨"a".data, .passed, 3⟩)]).getD
          (UnitTest.new "a".data))
      else none) ∧
    update_test_list_for_crate []
        ⟨⟨"w".data, [], "w".data, "w".data⟩, [], [⟨"d".data, 1, "f".data⟩]⟩ =
      update_test_list_for_crate [] ⟨⟨"w".data, [], "w".data, "w".data⟩, [], []⟩ ∧
    List.Sorted crateLe (update_test_list_for_crate []
      ⟨⟨"w".data, [], "w".data, "w".data⟩, ["a".data, "b".data], []⟩) :=
  ⟨(state_unit_test_mapping_rebuilt ⟨⟨"w".data, [], "w".data, "w".data⟩,
      [("a".data, ⟨"a".data, .passed, 3⟩)]⟩
      ⟨⟨"w".data, [], "w".data, "w".data⟩, ["a".data, "b".data], []⟩
      "a".data [] ⟨"w".data, [], "w".data, "w".data⟩ [] []).1 (by decide),
    (state_unit_test_mapping_rebuilt ⟨⟨"w".data, [], "w".data, "w".data⟩, []⟩
      ⟨⟨"w".data, [], "w".data, "w".data⟩, ["a".data, "b".data], []⟩
      "a".data [] ⟨"w".data, [], "w".data, "w".data⟩ []
      [⟨"d".data, 1, "f".data⟩]).2.1,
    (state_unit_test_mapping_rebuilt ⟨⟨"w".data, [], "w".data, "w".data⟩, []⟩
      ⟨⟨"w".data, [], "w".data, "w".data⟩, ["a".data, "b".data], []⟩
      "a".data [] ⟨"w".data, [], "w".data, "w".data⟩ [] []).2.2⟩

/-! ## Lemmas for summary-line parsing (claim C9) -/

theorem isPre_append_self : ∀ (p s : Str), isPre p (p ++ s) = true := by
  intro p
  induction p with
  | nil => intro s; rfl
  | cons c cs ih => intro s; simp [isPre, ih]

theorem notPre_commaSp_extend : ∀ (c : Char) (a2 b2 : Str),
    isPre ", ".data (c :: a2) = false →
    isPre ", ".data (c :: (a2 ++ ", ".data ++ b2)) = false := by
  intro c a2 b2 h
  cases a2 with
  | nil => simp [isPre]
  | cons d a3 =>
    simp [isPre] at h ⊢
    exact h

theorem containsSeq_cons_false (c : Char) (a2 : Str)
    (h : containsSeq ", ".data (c :: a2) = false) :
    isPre ", ".data (c :: a2) = false ∧ containsSeq ", ".data a2 = false := by
  unfold containsSeq at h
  unfold splitOnce at h
  by_cases hx : isPre ", ".data (c :: a2) = true
  · rw [if_pos hx] at h
    simp at h
  · have hx2 : isPre ", ".data (c :: a2) = false := by
      revert hx; cases isPre ", ".data (c :: a2) <;> simp
    rw [if_neg (by simp [hx2])] at h
    exact ⟨hx2, h⟩

theorem splitOnce_append_commaSp : ∀ (a b : Str),
    containsSeq ", ".data a = false →
    splitOnce ", ".data (a ++ ", ".data ++ b) = (a, some b) := by
  intro a
  induction a with
  | nil =>
    intro b _
    show splitOnce ", ".data (',' :: ' ' :: b) = ([], some b)
    unfold splitOnce
    rw [if_pos (by simp [isPre])]
    rfl
  | cons c a2 ih =>
    intro b h
    obtain ⟨h1, h2⟩ := containsSeq_cons_false c a2 h
    have h3 := notPre_commaSp_extend c a2 b h1
    show splitOnce ", ".data (c :: (a2 ++ ", ".data ++ b)) = (c :: a2, some b)
    unfold splitOnce
    rw [h3, if_neg Bool.false_ne_true]
    show (c :: (splitOnce ", ".data (a2 ++ ", ".data ++ b)).1,
        (splitOnce ", ".data (a2 ++ ", ".data ++ b)).2) = (c :: a2, some b)
    rw [ih b h2]

/-- C9 amended theorem: a line made of a first half (free of the
separator) and a second half joined by `", "` parses as a summary exactly
under the source's conditions — the first half must end with " tests" or
with the literal "1 test" and carry a leading integer, the second half
must end with " benchmarks" or with the literal "1 benchmark" and carry a
leading integer; a first half ending in " test" without the digit 1 in
front is not a summary (no match, not an error). -/
theorem summary_count_amended :
    (∀ (a b : Str) (n m : Nat),
      containsSeq ", ".data a = false →
      (endsW " tests".data a = true ∨ endsW "1 test".data a = true) →
      parse_leading_usize a = some n →
      (endsW " benchmarks".data b = true ∨ endsW "1 benchmark".data b = true) →
      parse_leading_usize b = some m →
      parse_test_summary_count (a ++ ", ".data ++ b) = some (n, m)) ∧
    (∀ (a b : Str),
      containsSeq ", ".data a = false →
      endsW " tests".data a = false →
      endsW "1 test".data a = false →
      parse_test_summary_count (a ++ ", ".data ++ b) = none) := by
  constructor
  · intro a b n m hc he1 hn he2 hm
    have hb1 : (endsW " tests".data a || endsW "1 test".data a) = true := by
      rcases he1 with h | h <;> simp [h]
    have hb2 : (endsW " benchmarks".data b || endsW "1 benchmark".data b) = true := by
      rcases he2 with h | h <;> simp [h]
    unfold parse_test_summary_count
    rw [splitOnce_append_commaSp a b hc]
    simp [hb1, hb2, hn, hm]
  · intro a b hc h1 h2
    unfold parse_test_summary_count
    rw [splitOnce_append_commaSp a b hc]
    simp [h1, h2]

/-- Witness for the C9 amended theorem: an accepted plural line and the
rejected singular line with count 2. -/
theorem summary_count_amended_witness :
    parse_test_summary_count ("2 tests".data ++ ", ".data ++ "1 benchmark".data) =
      some (2, 1) ∧
    parse_test_summary_count ("2 test".data ++ ", ".data ++ "0 benchmarks".data) = none :=
  ⟨summary_count_amended.1 "2 tests".data "1 benchmark".data 2 1 (by decide)
      (Or.inl (by decide)) (by decide) (Or.inr (by decide)) (by decide),
    summary_count_amended.2 "2 test".data "0 benchmarks".data (by decide)
      (by decide) (by decide)⟩

/-! ## Lemmas for the parser's error kinds (claim C10) -/

theorem crateNameParse_err_kind :
    ∀ (full : Str) (n : Nat) (raw : Str) (e : ParseError),
      CrateName.parse full n raw = .error e →
      e.kind = .malformedCrateName ∨ e.kind = .malformedUuid := by
  intro full n raw e h
  unfold CrateName.parse at h
  dsimp only at h
  split at h
  · injection h with h2
    rw [← h2]; left; rfl
  · split at h
    · split at h
      · exact Except.noConfusion h
      · injection h with h2
        rw [← h2]; right; rfl
    · exact Except.noConfusion h

theorem docTestParse_err_kind :
    ∀ (line : Str) (n : Nat) (raw : Str) (e : ParseError),
      DocTest.parse line n raw = .error e → e.kind = .malformedDocTestLine := by
  intro line n raw e h
  unfold DocTest.parse at h
  dsimp only at h
  repeat' split at h
  all_goals first
    | exact Except.noConfusion h
    | (injection h with h2; rw [← h2]; rfl)

theorem lineStep_err_no_docTestMiscount :
    ∀ (l : Str) (n : Nat) (st : PState) (e : ParseError),
      lineStep l n st = .error (.err e) → e.kind ≠ .docTestMiscount := by
  intro l n st e h
  cases st with
  | top acc =>
    unfold lineStep at h
    dsimp only at h
    repeat' split at h
    all_goals first
      | exact Except.noConfusion h
      | (injection h with h2; exact ParseOutcome.noConfusion h2)
      | (injection h with h2; injection h2 with h3; rw [← h3]; rename_i heqq
         rcases crateNameParse_err_kind _ _ _ _ heqq with hk | hk <;> simp [hk])
  | unit acc ct =>
    unfold lineStep at h
    dsimp only at h
    repeat' split at h
    all_goals first
      | exact Except.noConfusion h
      | (injection h with h2; injection h2 with h3; rw [← h3]
         simp [ParseError.withKind, ParseError.unitTestMiscountE])
  | doc b tgt a =>
    unfold lineStep at h
    dsimp only at h
    repeat' split at h
    all_goals first
      | exact Except.noConfusion h
      | (injection h with h2; injection h2 with h3; rw [← h3]
         simp [ParseError.withKind, ParseError.unitTestMiscountE]
         done)
      | (injection h with h2; injection h2 with h3; rw [← h3]; rename_i heqq
         have hk := docTestParse_err_kind _ _ _ _ heqq
         simp [hk])

theorem parseLoop_err_no_docTestMiscount :
    ∀ (rem : List Str) (n : Nat) (st : PState) (e : ParseError),
      parseLoop rem n st = .err e → e.kind ≠ .docTestMiscount := by
  intro rem
  induction rem with
  | nil =>
    intro n st e h
    exact absurd h (by simp [parseLoop])
  | cons l rest ih =>
    intro n st e h
    unfold parseLoop at h
    cases hs : lineStep l n st with
    | error out =>
      rw [hs] at h
      dsimp only at h
      rw [h] at hs
      exact lineStep_err_no_docTestMiscount l n st e hs
    | ok st2 =>
      rw [hs] at h
      dsimp only at h
      exact ih (n + 1) st2 e h

/-- C10 theorem: inside a Doc-tests section, a summary line whose declared
test count differs from the number of doc-test entries collected so far
aborts the parse with a `UnitTestMiscount` error carrying the actual
doc-test count (the same constructor as for unit-test sections); and no
parse of any input ever produces a `DocTestMiscount` error. -/
theorem doc_miscount_is_unit_test_miscount :
    (∀ (l : Str) (rest : List Str) (n : Nat) (b a : List Tests) (tgt : Tests)
        (nn bb : Nat),
      (rustTrim l).isEmpty = false →
      isPre runningPat (rustTrim l) = false →
      isPre docTestsPat (rustTrim l) = false →
      parse_test_summary_count (rustTrim l) = some (nn, bb) →
      nn ≠ tgt.doc_tests.length →
      parseLoop (l :: rest) n (.doc b tgt a) =
        .err (ParseError.unitTestMiscountE n l tgt.doc_tests.length)) ∧
    (∀ (data : Str) (e : ParseError),
      parse_test_list data = .err e → e.kind ≠ .docTestMiscount) := by
  constructor
  · intro l rest n b a tgt nn bb h1 h2 h3 h4 h5
    have h6 : tgt.doc_tests.length ≠ nn := Ne.symm h5
    unfold parseLoop lineStep
    dsimp only
    simp [h1, h2, h3, h4, h6]
  · intro data e h
    exact parseLoop_err_no_docTestMiscount (rustLines data) 1 (.top []) e h

/-- Witness for the C10 theorem: a doc section with zero collected entries
meeting the summary `1 tests, 0 benchmarks`, and the concrete error of an
unparseable Running line. -/
theorem doc_miscount_is_unit_test_miscount_witness :
    parseLoop ["1 tests, 0 benchmarks".data] 3
        (.doc [] ⟨⟨"w".data, [], "w".data, "w".data⟩, [], []⟩ []) =
      .err (ParseError.unitTestMiscountE 3 "1 tests, 0 benchmarks".data 0) ∧
    (⟨1, "Running foo-bar".data, .malformedUuid, []⟩ : ParseError).kind ≠
      .docTestMiscount :=
  ⟨doc_miscount_is_unit_test_miscount.1 "1 tests, 0 benchmarks".data [] 3 [] []
      ⟨⟨"w".data, [], "w".data, "w".data⟩, [], []⟩ 1 0 (by decide) (by decide)
      (by decide) (by decide) (by decide),
    doc_miscount_is_unit_test_miscount.2 "Running foo-bar".data
      ⟨1, "Running foo-bar".data, .malformedUuid, []⟩ (by decide)⟩

/-! ## Lemmas for the coalescer (claim C8) -/

theorem lastOpFor_from :
    ∀ (ops : List PathOp) (p : RPath) (init : Option PathOp),
      ops.foldl (fun acc o => if o.op.isSome ∧ o.path = p then some o else acc) init =
        (match lastOpFor ops p with
          | some o => some o
          | none => init) := by
  intro ops
  induction ops with
  | nil => intro p init; rfl
  | cons o rest ih =>
    intro p init
    show List.foldl _ (if o.op.isSome ∧ o.path = p then some o else init) rest = _
    rw [ih p _]
    have hr : lastOpFor (o :: rest) p =
        (match lastOpFor rest p with
          | some x => some x
          | none => if o.op.isSome ∧ o.path = p then some o else none) := by
      show List.foldl _ (if o.op.isSome ∧ o.path = p then some o else none) rest = _
      rw [ih p _]
    rw [hr]
    by_cases hc : o.op.isSome ∧ o.path = p
    · rw [if_pos hc, if_pos hc]
      cases lastOpFor rest p <;> rfl
    · rw [if_neg hc, if_neg hc]
      cases lastOpFor rest p <;> rfl

theorem lastOpFor_cons_ne (o : PathOp) (rest : List PathOp) (p : RPath)
    (h : ¬ (o.op.isSome ∧ o.path = p)) : lastOpFor (o :: rest) p = lastOpFor rest p := by
  show List.foldl _ (if o.op.isSome ∧ o.path = p then some o else none) rest = _
  rw [if_neg h, lastOpFor_from rest p none]
  cases lastOpFor rest p <;> rfl

theorem lastOpFor_cons_eq (o : PathOp) (rest : List PathOp) (p : RPath)
    (h : o.op.isSome ∧ o.path = p) (d : PathOp) :
    (lastOpFor (o :: rest) p).getD d = (lastOpFor rest p).getD o := by
  have hr : lastOpFor (o :: rest) p =
      (match lastOpFor rest p with
        | some x => some x
        | none => some o) := by
    show List.foldl _ (if o.op.isSome ∧ o.path = p then some o else none) rest = _
    rw [if_pos h, lastOpFor_from rest p (some o)]
  rw [hr]
  cases lastOpFor rest p <;> rfl

theorem coalesce_foldl_spec :
    ∀ (ops : List PathOp) (acc : List CoEntry),
      ops.foldl coalesceStep acc =
        acc.map (fun e => { e with pop := (lastOpFor ops e.path).getD e.pop }) ++
          coalesceSpec ops (acc.map (fun e => e.path)) acc.length := by
  intro ops
  induction ops with
  | nil =>
    intro acc
    show acc = _
    have hmap : acc.map
        (fun e => { e with pop := (lastOpFor [] e.path).getD e.pop }) = acc := by
      have hfe : (fun (e : CoEntry) => { e with pop := (lastOpFor [] e.path).getD e.pop }) =
          fun e => e := funext fun e => rfl
      rw [hfe, List.map_id']
    rw [hmap]
    show acc = acc ++ coalesceSpec [] _ _
    simp [coalesceSpec]
  | cons o rest ih =>
    intro acc
    show List.foldl coalesceStep (coalesceStep acc o) rest = _
    rw [ih (coalesceStep acc o)]
    cases hop : o.op with
    | none =>
      have hstep : coalesceStep acc o = acc := by simp [coalesceStep, hop]
      rw [hstep]
      congr 1
      · apply List.map_congr_left
        intro e _
        rw [lastOpFor_cons_ne o rest e.path (by simp [hop])]
      · show coalesceSpec rest _ _ = coalesceSpec (o :: rest) _ _
        rw [coalesceSpec]
        rw [if_pos (Or.inl (by simp [hop]))]
    | some fl =>
      by_cases hmem : acc.any (fun e => e.path = o.path)
      · have hstep : coalesceStep acc o =
            acc.map (fun e => if e.path = o.path then { e with pop := o } else e) := by
          simp only [coalesceStep, hop, hmem, if_pos]
        have hmemp : o.path ∈ acc.map (fun e => e.path) := by
          rcases List.any_eq_true.mp hmem with ⟨e, he, hpe⟩
          exact List.mem_map.mpr ⟨e, he, by simpa using hpe.symm⟩
        rw [hstep]
        have hpaths : (acc.map (fun e => if e.path = o.path then { e with pop := o } else e)).map
            (fun e => e.path) = acc.map (fun e => e.path) := by
          rw [List.map_map]
          apply List.map_congr_left
          intro e _
          by_cases hp : e.path = o.path <;> simp [Function.comp, hp]
        congr 1
        · rw [List.map_map]
          apply List.map_congr_left
          intro e _
          by_cases hp : e.path = o.path
          · show (fun e2 => { e2 with pop := (lastOpFor rest e2.path).getD e2.pop })
                (if e.path = o.path then { e with pop := o } else e) =
              { e with pop := (lastOpFor (o :: rest) e.path).getD e.pop }
            rw [if_pos hp]
            have := lastOpFor_cons_eq o rest e.path (by simp [hop, hp.symm]) e.pop
            simp only [this]
          · show (fun e2 => { e2 with pop := (lastOpFor rest e2.path).getD e2.pop })
                (if e.path = o.path then { e with pop := o } else e) =
              { e with pop := (lastOpFor (o :: rest) e.path).getD e.pop }
            rw [if_neg hp]
            rw [lastOpFor_cons_ne o rest e.path (fun hand => hp hand.2.symm)]
        · rw [hpaths, List.length_map]
          show coalesceSpec rest _ _ = coalesceSpec (o :: rest) _ _
          rw [coalesceSpec]
          rw [if_pos (Or.inr hmemp)]
      · have hstep : coalesceStep acc o = acc ++ [⟨o.path, acc.length, o⟩] := by
          simp only [coalesceStep, hop]
          rw [if_neg (by simp [hmem])]
        have hnmem : ¬ o.path ∈ acc.map (fun e => e.path) := by
          intro hx
          rcases List.mem_map.mp hx with ⟨e, he, hpe⟩
          rw [List.any_eq_true] at hmem
          exact hmem ⟨e, he, by simp [hpe]⟩
        rw [hstep]
        rw [List.map_append, List.length_append, List.map_append]
        show _ ++ _ ++ coalesceSpec rest _ _ = _ ++ coalesceSpec (o :: rest) _ _
        rw [coalesceSpec]
        rw [if_neg (by simp [hop, hnmem])]
        rw [List.append_assoc]
        congr 1
        · apply List.map_congr_left
          intro e he
          have hne : e.path ≠ o.path := by
            intro hx
            exact hnmem (hx ▸ List.mem_map.mpr ⟨e, he, rfl⟩)
          rw [lastOpFor_cons_ne o rest e.path (fun hand => hne hand.2.symm)]

theorem coalesceSpec_ord_le :
    ∀ (ops : List PathOp) (seen : List RPath) (k : Nat),
      ∀ e ∈ coalesceSpec ops seen k, k ≤ e.ord := by
  intro ops
  induction ops with
  | nil => intro seen k e he; simp [coalesceSpec] at he
  | cons o rest ih =>
    intro seen k e he
    rw [coalesceSpec] at he
    by_cases hc : o.op.isNone = true ∨ o.path ∈ seen
    · rw [if_pos hc] at he
      exact ih seen k e he
    · rw [if_neg hc] at he
      rcases List.mem_cons.mp he with rfl | hm
      · exact le_refl k
      · exact Nat.le_of_succ_le (ih _ (k + 1) e hm)

theorem coalesceSpec_sorted :
    ∀ (ops : List PathOp) (seen : List RPath) (k : Nat),
      List.Sorted ordLe (coalesceSpec ops seen k) := by
  intro ops
  induction ops with
  | nil => intro seen k; simp [coalesceSpec]
  | cons o rest ih =>
    intro seen k
    rw [coalesceSpec]
    by_cases hc : o.op.isNone = true ∨ o.path ∈ seen
    · rw [if_pos hc]; exact ih seen k
    · rw [if_neg hc]
      refine List.sorted_cons.mpr ⟨?_, ih _ (k + 1)⟩
      intro b hb
      show (⟨o.path, k, _⟩ : CoEntry).ord ≤ b.ord
      exact le_trans (Nat.le_succ k) (coalesceSpec_ord_le rest _ (k + 1) b hb)

theorem coalesce_entries_eq_spec (ops : List PathOp) :
    ops.foldl coalesceStep [] = coalesceSpec ops [] 0 := by
  simpa using coalesce_foldl_spec ops []

/-- C8 amended theorem: the coalescer emits, through `send_event`, exactly
the last flagged operation recorded for each distinct path, with the
survivors ordered by each path's first occurrence in the batch (as
`coalesceSpec` states the rule). -/
theorem coalescer_first_occurrence_order :
    ∀ (isF : RPath → Bool) (ops : List PathOp),
      on_update isF ops =
        (coalesceSpec ops [] 0).filterMap (fun e => send_event isF e.pop) := by
  intro isF ops
  unfold on_update
  by_cases h1 : ops.length = 1
  · rw [if_pos h1]
    obtain ⟨op, rfl⟩ := List.length_eq_one.mp h1
    cases hop : op.op with
    | none => simp [coalesceSpec, hop]
    | some fl =>
      rw [coalesceSpec, if_neg (by simp [hop])]
      have hlast : (lastOpFor [] op.path).getD op = op := rfl
      rw [hlast]
      cases hs : send_event isF op <;>
        simp [hop, hs, List.filterMap, Option.toList, coalesceSpec]
  · rw [if_neg h1]
    rw [coalesce_entries_eq_spec ops]
    rw [(coalesceSpec_sorted ops [] 0).insertionSort_eq]
